import Mathlib

/-!
Shallow embedding of the YEDA-Backend persistence/domain mapping layer
(`app/domain/models.py`, `app/infra/repositories.py`, `app/domain/usecases.py`).

Python values are modelled as follows:
* `uuid.UUID` values and their string forms both carry a `Nat` payload
  (`str(u)` / `uuid.UUID(s)` form a bijection); the `PyId` type records
  whether a Python value is a `uuid.UUID` object or a plain `str`, since
  Python equality distinguishes them (`UUID(...) == "..."` is `False`).
* SQLAlchemy tables are lists of flat row records inside a `DB` record;
  `session.scalar` of a point select is `List.find?`; deletes are filters;
  the `relationship(order_by=...)` loading is a filter followed by an
  insertion sort on the `number` column.
* `uuid.uuid4()` is modelled by a monotone counter `gen`: each call yields
  the current counter value, so freshly generated ids are exactly those
  `≥ gen` for a state whose stored ids are all `< gen`.
* Raised Python exceptions are `Except PyErr`; functions that return
  `None` for a missing row return `Option`.
-/

inductive PyId where
  | uuid (n : Nat)
  | str (n : Nat)
deriving DecidableEq, Repr

/-- Python `str(x)` applied to an id value: extracts the textual payload. -/
def pyStr : PyId → Nat
  | .uuid n => n
  | .str n => n

inductive PyErr where
  | notFound
  | indexError
  | valueError
  | constraintViolation
deriving DecidableEq, Repr

namespace models

structure User where
  id : PyId
  login : String
  password_hash : String
deriving DecidableEq, Repr

structure Element where
  id : PyId
  name : String
  calories : Int
deriving DecidableEq, Repr

structure TierListCategory where
  name : String
  element_ids : List PyId
deriving DecidableEq, Repr

structure TierList where
  id : PyId
  user_id : PyId
  name : String
  categories : List TierListCategory
deriving DecidableEq, Repr

end models

/- The SQLAlchemy mapped classes of `repositories.py`.  The objects built
by `_model_to_repo_tier_list` carry their `relationship` collections, so
`TierListCategory` and `TierList` below are the in-memory ORM objects;
the flat `...Row` records are what the tables store. -/

structure TierListElement where
  tier_list_category_id : Nat
  number : Nat
  element_id : Nat
deriving DecidableEq, Repr

structure TierListCategory where
  id : Nat
  tier_list_id : Nat
  number : Nat
  name : String
  elements : List TierListElement
deriving DecidableEq, Repr

structure TierList where
  id : Nat
  user_id : Nat
  name : String
  categories : List TierListCategory
deriving DecidableEq, Repr

structure UserRow where
  id : Nat
  login : String
  password_hash : String
deriving DecidableEq, Repr

structure ElementRow where
  id : Nat
  name : String
  calories : Int
deriving DecidableEq, Repr

structure TierListRow where
  id : Nat
  user_id : Nat
  name : String
deriving DecidableEq, Repr

structure TierListCategoryRow where
  id : Nat
  tier_list_id : Nat
  number : Nat
  name : String
deriving DecidableEq, Repr

structure DB where
  users : List UserRow
  elements : List ElementRow
  tier_lists : List TierListRow
  tier_list_categories : List TierListCategoryRow
  tier_list_elements : List TierListElement
deriving DecidableEq, Repr

/-- Insertion step for sorting rows by their `number` column. -/
def insertByNum (num : α → Nat) (x : α) : List α → List α
  | [] => [x]
  | y :: ys => if num x ≤ num y then x :: y :: ys else y :: insertByNum num x ys

/-- `relationship(order_by=...)`: rows sorted ascending by `number`. -/
def sortByNum (num : α → Nat) : List α → List α
  | [] => []
  | x :: xs => insertByNum num x (sortByNum num xs)

/-- `TierListElement` objects of one category, as built inside
`get_repo_category` by `enumerate(category.element_ids)`. -/
def mkRepoLinks (category_id : Nat) (num : Nat) : List PyId → List TierListElement
  | [] => []
  | e :: es => ⟨category_id, num, pyStr e⟩ :: mkRepoLinks category_id (num + 1) es

/-- `get_repo_category` of `_model_to_repo_tier_list`: `category_id` is the
fresh `uuid.uuid4()` drawn for this category. -/
def get_repo_category (category : models.TierListCategory) (tier_list_id : PyId)
    (number : Nat) (category_id : Nat) : TierListCategory :=
  { id := category_id
    tier_list_id := pyStr tier_list_id
    number := number
    name := category.name
    elements := mkRepoLinks category_id 0 category.element_ids }

/-- The `enumerate(model_tier_list.categories)` loop: position `num`, one
fresh uuid (`gen`, `gen+1`, ...) per category. -/
def mkRepoCategories (tier_list_id : PyId) (num : Nat) (gen : Nat) :
    List models.TierListCategory → List TierListCategory
  | [] => []
  | c :: cs =>
      get_repo_category c tier_list_id num gen ::
        mkRepoCategories tier_list_id (num + 1) (gen + 1) cs

/-- `_model_to_repo_tier_list`: the tier list record keeps
`str(model_tier_list.id)`; each category draws a fresh uuid. -/
def _model_to_repo_tier_list (model_tier_list : models.TierList) (gen : Nat) : TierList :=
  { id := pyStr model_tier_list.id
    user_id := pyStr model_tier_list.user_id
    name := model_tier_list.name
    categories := mkRepoCategories model_tier_list.id 0 gen model_tier_list.categories }

/-- `_repo_to_model_tier_list`: note that `id` and `user_id` are parsed back
with `uuid.UUID(...)` but `element_id` is taken verbatim, so the produced
`element_ids` hold raw `str` values. -/
def _repo_to_model_tier_list (repo_tier_list : TierList) : models.TierList :=
  { id := PyId.uuid repo_tier_list.id
    user_id := PyId.uuid repo_tier_list.user_id
    name := repo_tier_list.name
    categories := repo_tier_list.categories.map fun repo_category =>
      { name := repo_category.name
        element_ids := repo_category.elements.map fun repo_element =>
          PyId.str repo_element.element_id } }

/-- Flush of the `categories` relationship: at flush time the child foreign
key `tier_list_id` is synchronized from the parent row's primary key. -/
def flushCategories (tier_list_id : Nat) (cats : List TierListCategory) :
    List TierListCategoryRow :=
  cats.map fun c => ⟨c.id, tier_list_id, c.number, c.name⟩

/-- Flush of the `elements` relationships: each link row's
`tier_list_category_id` is synchronized from its owning category's id. -/
def flushLinks (cats : List TierListCategory) : List TierListElement :=
  cats.flatMap fun c => c.elements.map fun l => ⟨c.id, l.number, l.element_id⟩

namespace Repository

def add_user (db : DB) (user : models.User) : DB :=
  { db with users := db.users ++ [⟨pyStr user.id, user.login, user.password_hash⟩] }

def get_user (db : DB) (user_id : PyId) : Option models.User :=
  match db.users.find? (fun r => r.id == pyStr user_id) with
  | none => none
  | some r => some ⟨PyId.uuid r.id, r.login, r.password_hash⟩

def get_user_by_login (db : DB) (login : String) : Option models.User :=
  match db.users.find? (fun r => r.login == login) with
  | none => none
  | some r => some ⟨PyId.uuid r.id, r.login, r.password_hash⟩

def get_elements (db : DB) : List models.Element :=
  db.elements.map fun r => ⟨PyId.uuid r.id, r.name, r.calories⟩

def add_element (db : DB) (element : models.Element) : DB :=
  { db with elements := db.elements ++ [⟨pyStr element.id, element.name, element.calories⟩] }

/-- `get_element`: when no row matches, `session.scalar` yields `None` and
the unguarded attribute access fails (the spec's `NotFound`). -/
def get_element (db : DB) (element_id : PyId) : Except PyErr models.Element :=
  match db.elements.find? (fun r => r.id == pyStr element_id) with
  | none => .error .notFound
  | some r => .ok ⟨PyId.uuid r.id, r.name, r.calories⟩

/-- Loading one `TierListCategory` ORM object from its row, with its
`elements` relationship ordered by `number`. -/
def loadCategory (db : DB) (c : TierListCategoryRow) : TierListCategory :=
  { id := c.id
    tier_list_id := c.tier_list_id
    number := c.number
    name := c.name
    elements :=
      sortByNum (fun l => l.number)
        (db.tier_list_elements.filter fun l => l.tier_list_category_id == c.id) }

/-- Loading one `TierList` ORM object from its row, with its `categories`
relationship ordered by `number`. -/
def loadTierList (db : DB) (r : TierListRow) : TierList :=
  { id := r.id
    user_id := r.user_id
    name := r.name
    categories :=
      (sortByNum (fun c => c.number)
        (db.tier_list_categories.filter fun c => c.tier_list_id == r.id)).map
        (loadCategory db) }

def get_user_tier_lists (db : DB) (user_id : PyId) : List models.TierList :=
  (db.tier_lists.filter fun r => r.user_id == pyStr user_id).map fun r =>
    _repo_to_model_tier_list (loadTierList db r)

def create_tier_list (db : DB) (tier_list : models.TierList) (gen : Nat) : DB :=
  let repo := _model_to_repo_tier_list tier_list gen
  { db with
    tier_lists := db.tier_lists ++ [⟨repo.id, repo.user_id, repo.name⟩]
    tier_list_categories := db.tier_list_categories ++ flushCategories repo.id repo.categories
    tier_list_elements := db.tier_list_elements ++ flushLinks repo.categories }

/-- `session.merge` on the tier list row: update in place when the primary
key exists, insert otherwise. -/
def mergeTierListRow (rows : List TierListRow) (r : TierListRow) : List TierListRow :=
  if rows.any (fun x => x.id == r.id) then
    rows.map fun x => if x.id == r.id then r else x
  else rows ++ [r]

def update_tier_list (db : DB) (tier_list_id : PyId) (tier_list : models.TierList)
    (gen : Nat) : DB :=
  let repo0 := _model_to_repo_tier_list tier_list gen
  let repo : TierList := { repo0 with id := pyStr tier_list_id }
  let oldCatIds :=
    (db.tier_list_categories.filter fun c => c.tier_list_id == pyStr tier_list_id).map
      fun c => c.id
  { db with
    tier_list_elements :=
      (db.tier_list_elements.filter fun l =>
        !(oldCatIds.contains l.tier_list_category_id)) ++ flushLinks repo.categories
    tier_list_categories :=
      (db.tier_list_categories.filter fun c =>
        !(c.tier_list_id == pyStr tier_list_id)) ++ flushCategories repo.id repo.categories
    tier_lists := mergeTierListRow db.tier_lists ⟨repo.id, repo.user_id, repo.name⟩ }

end Repository

/-- The integrity constraints the schema declares: a primary key per table
(`users.id`, `elements.id`, `tier_lists.id`, `tier_list_categories.id`,
composite on `tier_list_elements`).  `login` carries no unique constraint
in `repositories.py`, only `nullable=False`. -/
def commitCheck (db : DB) : Except PyErr DB :=
  if (db.users.map fun r => r.id).Nodup ∧
     (db.elements.map fun r => r.id).Nodup ∧
     (db.tier_lists.map fun r => r.id).Nodup ∧
     (db.tier_list_categories.map fun r => r.id).Nodup ∧
     (db.tier_list_elements.map fun l =>
        (l.tier_list_category_id, l.number, l.element_id)).Nodup
  then .ok db else .error .constraintViolation

namespace usecases

structure Element where
  id : PyId
  name : String
  calories : Int
deriving DecidableEq, Repr

structure GetTierListCategory where
  name : String
  elements : List Element
deriving DecidableEq, Repr

structure GetTierList where
  id : PyId
  user_id : PyId
  name : String
  categories : List GetTierListCategory
deriving DecidableEq, Repr

structure UpdateTierListCategory where
  name : String
  element_ids : List PyId
deriving DecidableEq, Repr

structure UpdateTierList where
  name : String
  categories : List UpdateTierListCategory
deriving DecidableEq, Repr

end usecases

namespace UseCase

/-- `UseCase.get_user_tier_list`: indexes `user_tier_lists[0]` without a
guard (an empty sequence raises `IndexError`), then resolves every element
id through `Repository.get_element`. -/
def get_user_tier_list (db : DB) (user_id : PyId) : Except PyErr usecases.GetTierList :=
  match Repository.get_user_tier_lists db user_id with
  | [] => .error .indexError
  | tier_list :: _ => do
      let categories ← tier_list.categories.mapM fun category => do
        let elements ← category.element_ids.mapM fun element_id => do
          let e ← Repository.get_element db element_id
          pure (⟨e.id, e.name, e.calories⟩ : usecases.Element)
        pure (⟨category.name, elements⟩ : usecases.GetTierListCategory)
      pure ⟨tier_list.id, tier_list.user_id, tier_list.name, categories⟩

/-- `UseCase.update_user_tier_list`: indexes `[0]` without a guard, then
replaces the tier list's content. -/
def update_user_tier_list (db : DB) (user_id : PyId)
    (update : usecases.UpdateTierList) (gen : Nat) : Except PyErr DB :=
  match Repository.get_user_tier_lists db user_id with
  | [] => .error .indexError
  | tier_list :: _ =>
      .ok (Repository.update_tier_list db tier_list.id
        { id := tier_list.id
          user_id := tier_list.user_id
          name := update.name
          categories := update.categories.map fun c => ⟨c.name, c.element_ids⟩ }
        gen)

/-- `UseCase.register_user`: pre-checks the login, then creates the user
and an empty tier list together (`hash_password` is the identity).  The
two `uuid.uuid4()` calls are `gen` (user id) and `gen+1` (tier list id);
the empty tier list draws no category uuids. -/
def register_user (db : DB) (login password : String) (gen : Nat) :
    Except PyErr (PyId × DB) :=
  match Repository.get_user_by_login db login with
  | some _ => .error .valueError
  | none =>
      let user : models.User := ⟨PyId.uuid gen, login, password⟩
      let db1 := Repository.add_user db user
      let tier_list : models.TierList := ⟨PyId.uuid (gen + 1), user.id, "", []⟩
      .ok (user.id, Repository.create_tier_list db1 tier_list (gen + 2))

end UseCase

/-- Outcome of the body of a `with uow as repository:` scope: either a
normal result or a raised exception, each together with the session state
(including uncommitted writes) at that point. -/
inductive ScopeResult (α : Type) where
  | ok (a : α) (db : DB)
  | raised (e : PyErr) (db : DB)

structure SessionState where
  committed : DB
  current : DB
  closed : Bool

namespace UnitOfWork

def enter (db : DB) : SessionState := ⟨db, db, false⟩

def commit (s : SessionState) : SessionState := { s with committed := s.current }

def rollback (s : SessionState) : SessionState := { s with current := s.committed }

def close (s : SessionState) : SessionState := { s with closed := true }

/-- `UnitOfWork.__exit__`: commit when no exception was raised, roll back
otherwise, and close the session on both paths. -/
def exit (s : SessionState) (exc : Option PyErr) : SessionState :=
  close (match exc with
    | none => commit s
    | some _ => rollback s)

/-- A full `with uow as repository:` scope over a body. -/
def withScope {α : Type} (body : DB → ScopeResult α) (db : DB) :
    SessionState × Except PyErr α :=
  let s := enter db
  match body s.current with
  | .ok a db1 => (exit { s with current := db1 } none, .ok a)
  | .raised e db1 => (exit { s with current := db1 } (some e), .error e)

end UnitOfWork

/-- All identities already stored in `db` predate the uuid counter `gen`:
what `uuid.uuid4()` yields from `gen` on is fresh for `db`. -/
def FreshFor (gen : Nat) (db : DB) : Prop :=
  (∀ c ∈ db.tier_list_categories, c.id < gen) ∧
  (∀ l ∈ db.tier_list_elements, l.tier_list_category_id < gen)

instance (gen : Nat) (db : DB) : Decidable (FreshFor gen db) := by
  unfold FreshFor; infer_instance

/-- The observable content a write→read cycle yields for one category:
name preserved, element ids returned as raw strings. -/
def readBackCategory (c : models.TierListCategory) : models.TierListCategory :=
  ⟨c.name, c.element_ids.map fun e => PyId.str (pyStr e)⟩

/-- The observable content a write→read cycle yields for a tier list stored
under id `tlid`. -/
def readBack (tlid : PyId) (tl : models.TierList) : models.TierList :=
  ⟨PyId.uuid (pyStr tlid), PyId.uuid (pyStr tl.user_id), tl.name,
    tl.categories.map readBackCategory⟩

/-! ### Sorting -/

lemma insertByNum_of_lt {num : α → Nat} {x : α} {l : List α}
    (h : ∀ y ∈ l, num x < num y) : insertByNum num x l = x :: l := by
  cases l with
  | nil => rfl
  | cons y ys =>
      have : num x ≤ num y := Nat.le_of_lt (h y (List.mem_cons_self y ys))
      simp [insertByNum, this]

lemma sortByNum_of_pairwise {num : α → Nat} {l : List α}
    (h : l.Pairwise (fun a b => num a < num b)) : sortByNum num l = l := by
  induction l with
  | nil => rfl
  | cons x xs ih =>
      rcases List.pairwise_cons.mp h with ⟨hx, hxs⟩
      rw [sortByNum, ih hxs, insertByNum_of_lt hx]

/-! ### Facts about the forward mapping -/

lemma mkRepoLinks_map_number (cid k : Nat) (es : List PyId) :
    (mkRepoLinks cid k es).map (fun l => l.number) = List.range' k es.length := by
  induction es generalizing k with
  | nil => rfl
  | cons e es ih => simp [mkRepoLinks, ih, List.range']

lemma mkRepoLinks_map_element_id (cid k : Nat) (es : List PyId) :
    (mkRepoLinks cid k es).map (fun l => l.element_id) = es.map pyStr := by
  induction es generalizing k with
  | nil => rfl
  | cons e es ih => simp [mkRepoLinks, ih]

lemma mkRepoLinks_map_str (cid k : Nat) (es : List PyId) :
    (mkRepoLinks cid k es).map (fun l => PyId.str l.element_id)
      = es.map (fun e => PyId.str (pyStr e)) := by
  induction es generalizing k with
  | nil => rfl
  | cons e es ih => simp [mkRepoLinks, ih]

lemma mkRepoLinks_cat_id {cid k : Nat} {es : List PyId} :
    ∀ l ∈ mkRepoLinks cid k es, l.tier_list_category_id = cid := by
  induction es generalizing k with
  | nil => intro l hl; cases hl
  | cons e es ih =>
      intro l hl
      rcases List.mem_cons.mp hl with h | h
      · subst h; rfl
      · exact ih l h

lemma mkRepoLinks_number_ge {cid k : Nat} {es : List PyId} :
    ∀ l ∈ mkRepoLinks cid k es, k ≤ l.number := by
  induction es generalizing k with
  | nil => intro l hl; cases hl
  | cons e es ih =>
      intro l hl
      rcases List.mem_cons.mp hl with h | h
      · subst h; exact Nat.le_refl k
      · exact Nat.le_of_lt (Nat.lt_of_lt_of_le (Nat.lt_succ_self k) (ih l h))

lemma mkRepoLinks_pairwise (cid k : Nat) (es : List PyId) :
    (mkRepoLinks cid k es).Pairwise (fun a b => a.number < b.number) := by
  induction es generalizing k with
  | nil => exact List.Pairwise.nil
  | cons e es ih =>
      refine List.pairwise_cons.mpr ⟨?_, ih (k + 1)⟩
      intro l hl
      exact Nat.lt_of_lt_of_le (Nat.lt_succ_self k) (mkRepoLinks_number_ge l hl)

lemma mkRepoCategories_length (tlid : PyId) (num gen : Nat)
    (cs : List models.TierListCategory) :
    (mkRepoCategories tlid num gen cs).length = cs.length := by
  induction cs generalizing num gen with
  | nil => rfl
  | cons c cs ih => simp [mkRepoCategories, ih]

lemma mkRepoCategories_map_id (tlid : PyId) (num gen : Nat)
    (cs : List models.TierListCategory) :
    (mkRepoCategories tlid num gen cs).map (fun c => c.id)
      = List.range' gen cs.length := by
  induction cs generalizing num gen with
  | nil => rfl
  | cons c cs ih => simp [mkRepoCategories, get_repo_category, ih, List.range']

lemma mkRepoCategories_map_number (tlid : PyId) (num gen : Nat)
    (cs : List models.TierListCategory) :
    (mkRepoCategories tlid num gen cs).map (fun c => c.number)
      = List.range' num cs.length := by
  induction cs generalizing num gen with
  | nil => rfl
  | cons c cs ih => simp [mkRepoCategories, get_repo_category, ih, List.range']

lemma mem_mkRepoCategories_tier_list_id {tlid : PyId} {num gen : Nat}
    {cs : List models.TierListCategory} :
    ∀ c ∈ mkRepoCategories tlid num gen cs, c.tier_list_id = pyStr tlid := by
  induction cs generalizing num gen with
  | nil => intro c hc; cases hc
  | cons x xs ih =>
      intro c hc
      rcases List.mem_cons.mp hc with h | h
      · subst h; rfl
      · exact ih c h

lemma mem_mkRepoCategories_id_ge {tlid : PyId} {num gen : Nat}
    {cs : List models.TierListCategory} :
    ∀ c ∈ mkRepoCategories tlid num gen cs, gen ≤ c.id := by
  induction cs generalizing num gen with
  | nil => intro c hc; cases hc
  | cons x xs ih =>
      intro c hc
      rcases List.mem_cons.mp hc with h | h
      · subst h; exact Nat.le_refl gen
      · exact Nat.le_of_lt (Nat.lt_of_lt_of_le (Nat.lt_succ_self gen) (ih c h))

lemma mem_mkRepoCategories_id_lt {tlid : PyId} {num gen : Nat}
    {cs : List models.TierListCategory} :
    ∀ c ∈ mkRepoCategories tlid num gen cs, c.id < gen + cs.length := by
  intro c hc
  have := List.mem_range'_1.mp
    (by rw [← mkRepoCategories_map_id tlid num gen cs]
        exact List.mem_map_of_mem (fun c => c.id) hc)
  exact this.2

lemma mem_mkRepoCategories_number_ge {tlid : PyId} {num gen : Nat}
    {cs : List models.TierListCategory} :
    ∀ c ∈ mkRepoCategories tlid num gen cs, num ≤ c.number := by
  induction cs generalizing num gen with
  | nil => intro c hc; cases hc
  | cons x xs ih =>
      intro c hc
      rcases List.mem_cons.mp hc with h | h
      · subst h; exact Nat.le_refl num
      · exact Nat.le_of_lt (Nat.lt_of_lt_of_le (Nat.lt_succ_self num) (ih c h))

lemma mkRepoCategories_pairwise_number (tlid : PyId) (num gen : Nat)
    (cs : List models.TierListCategory) :
    (mkRepoCategories tlid num gen cs).Pairwise (fun a b => a.number < b.number) := by
  induction cs generalizing num gen with
  | nil => exact List.Pairwise.nil
  | cons x xs ih =>
      refine List.pairwise_cons.mpr ⟨?_, ih (num + 1) (gen + 1)⟩
      intro c hc
      exact Nat.lt_of_lt_of_le (Nat.lt_succ_self num) (mem_mkRepoCategories_number_ge c hc)

lemma mkRepoCategories_nodup_id (tlid : PyId) (num gen : Nat)
    (cs : List models.TierListCategory) :
    ((mkRepoCategories tlid num gen cs).map (fun c => c.id)).Nodup := by
  rw [mkRepoCategories_map_id]
  exact List.nodup_range' gen cs.length

lemma mem_mkRepoCategories_elements {tlid : PyId} {num gen : Nat}
    {cs : List models.TierListCategory} :
    ∀ c ∈ mkRepoCategories tlid num gen cs,
      ∀ l ∈ c.elements, l.tier_list_category_id = c.id := by
  induction cs generalizing num gen with
  | nil => intro c hc; cases hc
  | cons x xs ih =>
      intro c hc
      rcases List.mem_cons.mp hc with h | h
      · subst h; exact fun l hl => mkRepoLinks_cat_id l hl
      · exact ih c h

lemma mem_mkRepoCategories_elements_pairwise {tlid : PyId} {num gen : Nat}
    {cs : List models.TierListCategory} :
    ∀ c ∈ mkRepoCategories tlid num gen cs,
      c.elements.Pairwise (fun a b => a.number < b.number) := by
  induction cs generalizing num gen with
  | nil => intro c hc; cases hc
  | cons x xs ih =>
      intro c hc
      rcases List.mem_cons.mp hc with h | h
      · subst h; exact mkRepoLinks_pairwise gen 0 x.element_ids
      · exact ih c h

/-! ### Facts about the flush of the relationship trees -/

lemma flushCategories_length (t : Nat) (cats : List TierListCategory) :
    (flushCategories t cats).length = cats.length := by
  simp [flushCategories]

lemma flushCategories_map_id (t : Nat) (cats : List TierListCategory) :
    (flushCategories t cats).map (fun r => r.id) = cats.map (fun c => c.id) := by
  simp [flushCategories]

lemma flushCategories_map_number (t : Nat) (cats : List TierListCategory) :
    (flushCategories t cats).map (fun r => r.number) = cats.map (fun c => c.number) := by
  simp [flushCategories]

lemma mem_flushCategories_tier_list_id {t : Nat} {cats : List TierListCategory} :
    ∀ r ∈ flushCategories t cats, r.tier_list_id = t := by
  intro r hr
  rcases List.mem_map.mp hr with ⟨c, _, hc⟩
  rw [← hc]

lemma mem_flushLinks {cats : List TierListCategory} :
    ∀ l ∈ flushLinks cats, l.tier_list_category_id ∈ cats.map (fun c => c.id) := by
  intro l hl
  rcases List.mem_flatMap.mp hl with ⟨c, hc, hlc⟩
  rcases List.mem_map.mp hlc with ⟨e, _, he⟩
  rw [← he]
  exact List.mem_map_of_mem (fun c => c.id) hc

lemma map_stamp_id {cid : Nat} {es : List TierListElement}
    (h : ∀ l ∈ es, l.tier_list_category_id = cid) :
    es.map (fun l => (⟨cid, l.number, l.element_id⟩ : TierListElement)) = es := by
  induction es with
  | nil => rfl
  | cons e es ih =>
      have he : e.tier_list_category_id = cid := h e (List.mem_cons_self e es)
      simp only [List.map_cons]
      rw [ih fun l hl => h l (List.mem_cons_of_mem e hl), ← he]

lemma flushLinks_cons (a : TierListCategory) (as : List TierListCategory) :
    flushLinks (a :: as)
      = a.elements.map (fun l => (⟨a.id, l.number, l.element_id⟩ : TierListElement))
        ++ flushLinks as := by
  simp [flushLinks]

lemma flushLinks_filter_eq {cats : List TierListCategory} {c : TierListCategory}
    (hnd : (cats.map (fun c => c.id)).Nodup) (hc : c ∈ cats) :
    (flushLinks cats).filter (fun l => l.tier_list_category_id == c.id)
      = c.elements.map (fun l => (⟨c.id, l.number, l.element_id⟩ : TierListElement)) := by
  induction cats with
  | nil => cases hc
  | cons a as ih =>
      have hnd' : (as.map (fun c => c.id)).Nodup := (List.nodup_cons.mp hnd).2
      have hna : a.id ∉ as.map (fun c => c.id) := (List.nodup_cons.mp hnd).1
      rw [flushLinks_cons, List.filter_append]
      rcases List.mem_cons.mp hc with h | h
      · subst h
        have h1 : (c.elements.map (fun l =>
            (⟨c.id, l.number, l.element_id⟩ : TierListElement))).filter
              (fun l => l.tier_list_category_id == c.id)
            = c.elements.map (fun l => (⟨c.id, l.number, l.element_id⟩ : TierListElement)) := by
          refine List.filter_eq_self.mpr ?_
          intro x hx
          rcases List.mem_map.mp hx with ⟨e, _, he⟩
          rw [← he]
          exact beq_self_eq_true c.id
        have h2 : (flushLinks as).filter (fun l => l.tier_list_category_id == c.id) = [] := by
          refine List.filter_eq_nil_iff.mpr ?_
          intro x hx
          intro hb
          exact hna (by rw [← beq_iff_eq.mp hb]; exact mem_flushLinks x hx)
        rw [h1, h2, List.append_nil]
      · have hca : c.id ≠ a.id := by
          intro he
          exact hna (by rw [← he]; exact List.mem_map_of_mem (fun c => c.id) h)
        have h1 : (a.elements.map (fun l =>
            (⟨a.id, l.number, l.element_id⟩ : TierListElement))).filter
              (fun l => l.tier_list_category_id == c.id) = [] := by
          refine List.filter_eq_nil_iff.mpr ?_
          intro x hx hb
          rcases List.mem_map.mp hx with ⟨e, _, he⟩
          rw [← he] at hb
          exact hca (beq_iff_eq.mp hb).symm
        rw [h1, List.nil_append]
        exact ih hnd' h

/-! ### The tables after `update_tier_list` -/

lemma update_tier_lists (db : DB) (tlid : PyId) (tl : models.TierList) (gen : Nat) :
    (Repository.update_tier_list db tlid tl gen).tier_lists
      = Repository.mergeTierListRow db.tier_lists ⟨pyStr tlid, pyStr tl.user_id, tl.name⟩ := rfl

lemma update_categories (db : DB) (tlid : PyId) (tl : models.TierList) (gen : Nat) :
    (Repository.update_tier_list db tlid tl gen).tier_list_categories
      = (db.tier_list_categories.filter fun c => !(c.tier_list_id == pyStr tlid))
        ++ flushCategories (pyStr tlid) (mkRepoCategories tl.id 0 gen tl.categories) := rfl

lemma update_elements_table (db : DB) (tlid : PyId) (tl : models.TierList) (gen : Nat) :
    (Repository.update_tier_list db tlid tl gen).tier_list_elements
      = (db.tier_list_elements.filter fun l =>
          !(((db.tier_list_categories.filter fun c =>
              c.tier_list_id == pyStr tlid).map fun c => c.id).contains
            l.tier_list_category_id))
        ++ flushLinks (mkRepoCategories tl.id 0 gen tl.categories) := rfl

lemma update_users (db : DB) (tlid : PyId) (tl : models.TierList) (gen : Nat) :
    (Repository.update_tier_list db tlid tl gen).users = db.users := rfl

lemma update_elements (db : DB) (tlid : PyId) (tl : models.TierList) (gen : Nat) :
    (Repository.update_tier_list db tlid tl gen).elements = db.elements := rfl

lemma update_categories_filter (db : DB) (tlid : PyId) (tl : models.TierList) (gen : Nat) :
    (Repository.update_tier_list db tlid tl gen).tier_list_categories.filter
        (fun c => c.tier_list_id == pyStr tlid)
      = flushCategories (pyStr tlid) (mkRepoCategories tl.id 0 gen tl.categories) := by
  rw [update_categories, List.filter_append]
  have h1 : (db.tier_list_categories.filter fun c =>
      !(c.tier_list_id == pyStr tlid)).filter
        (fun c => c.tier_list_id == pyStr tlid) = [] := by
    refine List.filter_eq_nil_iff.mpr ?_
    intro c hc hb
    have := (List.mem_filter.mp hc).2
    rw [hb] at this
    exact Bool.false_ne_true this
  have h2 : (flushCategories (pyStr tlid)
      (mkRepoCategories tl.id 0 gen tl.categories)).filter
        (fun c => c.tier_list_id == pyStr tlid)
      = flushCategories (pyStr tlid) (mkRepoCategories tl.id 0 gen tl.categories) := by
    refine List.filter_eq_self.mpr ?_
    intro r hr
    exact beq_iff_eq.mpr (mem_flushCategories_tier_list_id r hr)
  rw [h1, h2, List.nil_append]

lemma update_links_filter {db : DB} {tlid : PyId} {tl : models.TierList} {gen : Nat}
    (H1 : FreshFor gen db) {c : TierListCategory}
    (hc : c ∈ mkRepoCategories tl.id 0 gen tl.categories) :
    (Repository.update_tier_list db tlid tl gen).tier_list_elements.filter
        (fun l => l.tier_list_category_id == c.id)
      = c.elements := by
  rw [update_elements_table, List.filter_append]
  have hge : gen ≤ c.id := mem_mkRepoCategories_id_ge c hc
  have h1 : ((db.tier_list_elements.filter fun l =>
      !(((db.tier_list_categories.filter fun x =>
          x.tier_list_id == pyStr tlid).map fun x => x.id).contains
        l.tier_list_category_id)).filter
        (fun l => l.tier_list_category_id == c.id)) = [] := by
    refine List.filter_eq_nil_iff.mpr ?_
    intro l hl hb
    have hmem : l ∈ db.tier_list_elements := (List.mem_filter.mp hl).1
    have hlt : l.tier_list_category_id < gen := H1.2 l hmem
    rw [beq_iff_eq.mp hb] at hlt
    exact Nat.not_le_of_lt hlt hge
  have h2 : (flushLinks (mkRepoCategories tl.id 0 gen tl.categories)).filter
      (fun l => l.tier_list_category_id == c.id) = c.elements := by
    rw [flushLinks_filter_eq (mkRepoCategories_nodup_id tl.id 0 gen tl.categories) hc]
    exact map_stamp_id (mem_mkRepoCategories_elements c hc)
  rw [h1, h2, List.nil_append]


/-! ### Facts about `session.merge` on the tier list row -/

lemma replaceRow_filter_user {rows : List TierListRow} {r : TierListRow} {target : Nat}
    (hu : r.user_id = target)
    (H2 : ∀ x ∈ rows, x.user_id = target → x.id = r.id)
    (H3 : (rows.map fun x => x.id).Nodup)
    (hany : rows.any (fun x => x.id == r.id) = true) :
    (rows.map fun x => if x.id == r.id then r else x).filter
        (fun x => x.user_id == target) = [r] := by
  induction rows with
  | nil => simp at hany
  | cons x xs ih =>
      have hnd' : (xs.map fun y => y.id).Nodup := (List.nodup_cons.mp H3).2
      have hnx : x.id ∉ xs.map fun y => y.id := (List.nodup_cons.mp H3).1
      by_cases hx : (x.id == r.id) = true
      · have hxid : x.id = r.id := beq_iff_eq.mp hx
        have hmap : xs.map (fun y => if y.id == r.id then r else y) = xs := by
          conv_rhs => rw [← List.map_id xs]
          refine List.map_congr_left ?_
          intro y hy
          have hyb : (y.id == r.id) = false := by
            by_contra hyy
            have hyid : y.id = r.id := beq_iff_eq.mp (Bool.of_not_eq_false hyy)
            have hmem : y.id ∈ xs.map fun y => y.id :=
              List.mem_map_of_mem (fun y => y.id) hy
            rw [hyid, ← hxid] at hmem
            exact hnx hmem
          rw [hyb]
          simp
        have hxs : xs.filter (fun y => y.user_id == target) = [] := by
          refine List.filter_eq_nil_iff.mpr ?_
          intro y hy hb
          have hyid : y.id = r.id := H2 y (List.mem_cons_of_mem x hy) (beq_iff_eq.mp hb)
          have hmem : y.id ∈ xs.map fun y => y.id :=
            List.mem_map_of_mem (fun y => y.id) hy
          rw [hyid, ← hxid] at hmem
          exact hnx hmem
        simp only [List.map_cons, hx, if_true, hmap, List.filter_cons]
        rw [if_pos (by simpa using beq_iff_eq.mpr hu), hxs]
      · have hxb : (x.id == r.id) = false := Bool.eq_false_iff.mpr hx
        have hany' : xs.any (fun y => y.id == r.id) = true := by
          rw [List.any_cons, hxb] at hany
          simpa using hany
        have hxu : (x.user_id == target) = false := by
          by_contra hb
          have hxt : x.user_id = target := beq_iff_eq.mp (Bool.of_not_eq_false hb)
          have : x.id = r.id := H2 x (List.mem_cons_self x xs) hxt
          rw [this] at hxb
          simp at hxb
        simp only [List.map_cons, hxb, Bool.false_eq_true, if_false, List.filter_cons, hxu]
        exact ih (fun y hy => H2 y (List.mem_cons_of_mem x hy)) hnd' hany'

lemma mergeTierListRow_filter_user {rows : List TierListRow} {r : TierListRow}
    {target : Nat} (hu : r.user_id = target)
    (H2 : ∀ x ∈ rows, x.user_id = target → x.id = r.id)
    (H3 : (rows.map fun x => x.id).Nodup) :
    (Repository.mergeTierListRow rows r).filter (fun x => x.user_id == target)
      = [r] := by
  unfold Repository.mergeTierListRow
  by_cases hany : rows.any (fun x => x.id == r.id) = true
  · rw [if_pos hany]
    exact replaceRow_filter_user hu H2 H3 hany
  · rw [if_neg hany]
    have hnone : ∀ x ∈ rows, x.user_id ≠ target := by
      intro x hx hxu
      exact hany (List.any_eq_true.mpr ⟨x, hx, beq_iff_eq.mpr (H2 x hx hxu)⟩)
    rw [List.filter_append]
    have h1 : rows.filter (fun x => x.user_id == target) = [] := by
      refine List.filter_eq_nil_iff.mpr ?_
      intro x hx hb
      exact hnone x hx (beq_iff_eq.mp hb)
    have h2 : [r].filter (fun x => x.user_id == target) = [r] := by
      simp [hu]
    rw [h1, h2, List.nil_append]

lemma replaceRow_filter_ne (rows : List TierListRow) (r : TierListRow) :
    (rows.map fun x => if x.id == r.id then r else x).filter
        (fun x => !(x.id == r.id))
      = rows.filter (fun x => !(x.id == r.id)) := by
  induction rows with
  | nil => rfl
  | cons x xs ih =>
      by_cases hx : (x.id == r.id) = true
      · simp only [List.map_cons, hx, if_true, List.filter_cons]
        rw [if_neg (by simp), if_neg (by simp [hx])]
        exact ih
      · have hxb : (x.id == r.id) = false := Bool.eq_false_iff.mpr hx
        simp only [List.map_cons, hxb, Bool.false_eq_true, if_false, List.filter_cons]
        rw [if_pos (by simp [hxb]), if_pos (by simp [hxb]), ih]

lemma mergeTierListRow_filter_ne (rows : List TierListRow) (r : TierListRow) :
    (Repository.mergeTierListRow rows r).filter (fun x => !(x.id == r.id))
      = rows.filter (fun x => !(x.id == r.id)) := by
  unfold Repository.mergeTierListRow
  by_cases hany : rows.any (fun x => x.id == r.id) = true
  · rw [if_pos hany]
    exact replaceRow_filter_ne rows r
  · rw [if_neg hany, List.filter_append]
    have : [r].filter (fun x => !(x.id == r.id)) = [] := by simp
    rw [this, List.append_nil]

lemma mergeTierListRow_map_id (rows : List TierListRow) (r : TierListRow) :
    (Repository.mergeTierListRow rows r).map (fun x => x.id)
      = if rows.any (fun x => x.id == r.id) = true then rows.map (fun x => x.id)
        else rows.map (fun x => x.id) ++ [r.id] := by
  unfold Repository.mergeTierListRow
  by_cases hany : rows.any (fun x => x.id == r.id) = true
  · rw [if_pos hany, if_pos hany, List.map_map]
    refine List.map_congr_left ?_
    intro x _
    by_cases hx : (x.id == r.id) = true
    · simp only [Function.comp, hx, if_true]
      exact (beq_iff_eq.mp hx).symm
    · simp only [Function.comp, Bool.eq_false_iff.mpr hx, Bool.false_eq_true, if_false]
  · rw [if_neg hany, if_neg hany, List.map_append]
    rfl

lemma mergeTierListRow_nodup {rows : List TierListRow} {r : TierListRow}
    (h : (rows.map fun x => x.id).Nodup) :
    ((Repository.mergeTierListRow rows r).map fun x => x.id).Nodup := by
  rw [mergeTierListRow_map_id]
  by_cases hany : rows.any (fun x => x.id == r.id) = true
  · rw [if_pos hany]; exact h
  · rw [if_neg hany]
    have hr : r.id ∉ rows.map fun x => x.id := by
      intro hmem
      rcases List.mem_map.mp hmem with ⟨x, hx, hxid⟩
      exact hany (List.any_eq_true.mpr ⟨x, hx, beq_iff_eq.mpr hxid⟩)
    rw [List.nodup_append]
    refine ⟨h, List.nodup_singleton r.id, ?_⟩
    intro a ha hb
    rw [List.mem_singleton.mp hb] at ha
    exact hr ha

lemma mergeTierListRow_user_imp {rows : List TierListRow} {r : TierListRow}
    {target : Nat}
    (H2 : ∀ x ∈ rows, x.user_id = target → x.id = r.id) :
    ∀ x ∈ Repository.mergeTierListRow rows r, x.user_id = target → x.id = r.id := by
  unfold Repository.mergeTierListRow
  by_cases hany : rows.any (fun x => x.id == r.id) = true
  · rw [if_pos hany]
    intro x hx hxu
    rcases List.mem_map.mp hx with ⟨y, hy, hyx⟩
    by_cases hyid : (y.id == r.id) = true
    · rw [← hyx]
      simp only [hyid, if_true]
    · rw [← hyx] at hxu ⊢
      simp only [Bool.eq_false_iff.mpr hyid, Bool.false_eq_true, if_false] at hxu ⊢
      exact H2 y hy hxu
  · rw [if_neg hany]
    intro x hx hxu
    rcases List.mem_append.mp hx with h | h
    · exact H2 x h hxu
    · rw [List.mem_singleton.mp h]

/-! ### Freshness propagation and the read after an update -/

lemma FreshFor_update {gen : Nat} {db : DB} (tlid : PyId) (tl : models.TierList)
    (H1 : FreshFor gen db) :
    FreshFor (gen + tl.categories.length)
      (Repository.update_tier_list db tlid tl gen) := by
  constructor
  · intro c hc
    rw [update_categories] at hc
    rcases List.mem_append.mp hc with h | h
    · exact Nat.lt_of_lt_of_le (H1.1 c (List.mem_filter.mp h).1)
        (Nat.le_add_right gen tl.categories.length)
    · rcases List.mem_map.mp h with ⟨c0, hc0, hc0c⟩
      rw [← hc0c]
      exact mem_mkRepoCategories_id_lt c0 hc0
  · intro l hl
    rw [update_elements_table] at hl
    rcases List.mem_append.mp hl with h | h
    · exact Nat.lt_of_lt_of_le (H1.2 l (List.mem_filter.mp h).1)
        (Nat.le_add_right gen tl.categories.length)
    · have := mem_flushLinks l h
      rcases List.mem_map.mp this with ⟨c0, hc0, hc0c⟩
      rw [← hc0c]
      exact mem_mkRepoCategories_id_lt c0 hc0

/-- Reading the flushed categories back: each flushed row reloads (under the
link-table description `Hf`) to its originating in-memory category, and the
inverse mapping then yields the observable category content. -/
lemma read_flushed_categories (db2 : DB) (t : Nat) (tlid : PyId)
    (cs : List models.TierListCategory) (num gen : Nat)
    (Hf : ∀ c ∈ mkRepoCategories tlid num gen cs,
      db2.tier_list_elements.filter (fun l => l.tier_list_category_id == c.id)
        = c.elements) :
    ((flushCategories t (mkRepoCategories tlid num gen cs)).map
        (fun row => Repository.loadCategory db2 row)).map
        (fun repo_category =>
          ({ name := repo_category.name,
             element_ids := repo_category.elements.map fun repo_element =>
               PyId.str repo_element.element_id } : models.TierListCategory))
      = cs.map readBackCategory := by
  induction cs generalizing num gen with
  | nil => rfl
  | cons c cs ih =>
      have hhead : db2.tier_list_elements.filter
          (fun l => l.tier_list_category_id == gen)
            = mkRepoLinks gen 0 c.element_ids :=
        Hf (get_repo_category c tlid num gen)
          (List.mem_cons_self _ _)
      have htail := fun c0 hc0 => Hf c0 (List.mem_cons_of_mem _ hc0)
      simp only [mkRepoCategories, flushCategories, List.map_cons]
      rw [← flushCategories]
      rw [ih (num + 1) (gen + 1) htail]
      simp only [Repository.loadCategory, get_repo_category]
      rw [hhead, sortByNum_of_pairwise (mkRepoLinks_pairwise gen 0 c.element_ids)]
      simp only [readBackCategory, List.map_map]
      rw [mkRepoLinks_map_str gen 0 c.element_ids]

/-- The read observable after `update_tier_list`: provided every stored id
predates `gen` (`H1`), the tier list `tlid` is the only one its user owns
(`H2`), and tier list primary keys are unique (`H3`), reading the user's
tier lists returns exactly the written content — names and order intact,
element ids as raw strings. -/
lemma update_read {db : DB} {tlid : PyId} {tl : models.TierList} {gen : Nat}
    (H1 : FreshFor gen db)
    (H2 : ∀ r ∈ db.tier_lists, r.user_id = pyStr tl.user_id → r.id = pyStr tlid)
    (H3 : (db.tier_lists.map fun r => r.id).Nodup) :
    Repository.get_user_tier_lists (Repository.update_tier_list db tlid tl gen)
        tl.user_id
      = [readBack tlid tl] := by
  have hfilter : (Repository.update_tier_list db tlid tl gen).tier_lists.filter
      (fun x => x.user_id == pyStr tl.user_id)
      = [⟨pyStr tlid, pyStr tl.user_id, tl.name⟩] := by
    rw [update_tier_lists]
    exact mergeTierListRow_filter_user rfl H2 H3
  have hcats := update_categories_filter db tlid tl gen
  have hp : (flushCategories (pyStr tlid)
      (mkRepoCategories tl.id 0 gen tl.categories)).Pairwise
        (fun a b => a.number < b.number) := by
    unfold flushCategories
    exact (List.pairwise_map).mpr
      (mkRepoCategories_pairwise_number tl.id 0 gen tl.categories)
  have hread := read_flushed_categories (Repository.update_tier_list db tlid tl gen)
    (pyStr tlid) tl.id tl.categories 0 gen
    (fun c hc => update_links_filter H1 hc)
  unfold Repository.get_user_tier_lists
  rw [hfilter]
  simp only [List.map_cons, List.map_nil]
  unfold Repository.loadTierList _repo_to_model_tier_list
  simp only []
  rw [hcats, sortByNum_of_pairwise hp]
  simp only [readBack]
  rw [← hread]

/-- After `update_tier_list` no link row references any of the category ids
that belonged to tier list `tlid` before the update. -/
lemma update_no_orphans {db : DB} {tlid : PyId} {tl : models.TierList} {gen : Nat}
    (H1 : FreshFor gen db) :
    ∀ l ∈ (Repository.update_tier_list db tlid tl gen).tier_list_elements,
      l.tier_list_category_id ∉
        ((db.tier_list_categories.filter fun c =>
          c.tier_list_id == pyStr tlid).map fun c => c.id) := by
  intro l hl hmem
  rw [update_elements_table] at hl
  rcases List.mem_append.mp hl with h | h
  · have hnot := (List.mem_filter.mp h).2
    simp only [Bool.not_eq_true', List.contains_eq_any_beq, List.any_eq_true,
      not_exists, Bool.not_eq_true] at hnot
    simp only [List.any_eq_false] at hnot
    exact absurd (beq_self_eq_true l.tier_list_category_id)
      (by simpa using hnot l.tier_list_category_id hmem)
  · rcases List.mem_map.mp hmem with ⟨c, hc, hcid⟩
    have hclt : c.id < gen := H1.1 c (List.mem_filter.mp hc).1
    have := mem_flushLinks l h
    rcases List.mem_map.mp this with ⟨c0, hc0, hc0c⟩
    have hge : gen ≤ c0.id := mem_mkRepoCategories_id_ge c0 hc0
    rw [← hc0c] at hcid
    rw [hcid] at hclt
    exact Nat.not_le_of_lt hclt hge

/-- Id bounds for the flushed category rows of one forward mapping. -/
lemma mem_flushCategories_id_bounds {t : Nat} {tlid : PyId} {num gen : Nat}
    {cs : List models.TierListCategory} :
    ∀ r ∈ flushCategories t (mkRepoCategories tlid num gen cs),
      gen ≤ r.id ∧ r.id < gen + cs.length := by
  intro r hr
  rcases List.mem_map.mp hr with ⟨c, hc, hcr⟩
  rw [← hcr]
  exact ⟨mem_mkRepoCategories_id_ge c hc, mem_mkRepoCategories_id_lt c hc⟩

/-! ### The use cases never hide the unguarded `[0]` access -/

lemma except_bind_error {α β : Type} (x : Except PyErr α) (f : α → Except PyErr β)
    (e : PyErr) (hx : x ≠ .error e) (hf : ∀ a, f a ≠ .error e) :
    x >>= f ≠ .error e := by
  cases x with
  | error e1 =>
      intro h
      exact hx (by simpa [Bind.bind, Except.bind] using h)
  | ok a =>
      intro h
      exact hf a (by simpa [Bind.bind, Except.bind] using h)

lemma mapM_ne_error {α β : Type} (f : α → Except PyErr β) (e : PyErr)
    (h : ∀ a, f a ≠ .error e) (l : List α) :
    l.mapM f ≠ .error e := by
  induction l with
  | nil => simp [List.mapM, List.mapM.loop, pure, Except.pure]
  | cons a as ih =>
      rw [List.mapM_cons]
      refine except_bind_error _ _ _ (h a) ?_
      intro b
      refine except_bind_error _ _ _ ih ?_
      intro bs
      simp [pure, Except.pure]

lemma get_element_ne_indexError (db : DB) (eid : PyId) :
    Repository.get_element db eid ≠ .error .indexError := by
  unfold Repository.get_element
  cases db.elements.find? (fun r => r.id == pyStr eid) with
  | none => simp
  | some r => simp

lemma mkRepoCategories_map_name (tlid : PyId) (num gen : Nat)
    (cs : List models.TierListCategory) :
    (mkRepoCategories tlid num gen cs).map (fun c => c.name)
      = cs.map (fun c => c.name) := by
  induction cs generalizing num gen with
  | nil => rfl
  | cons c cs ih => simp [mkRepoCategories, get_repo_category, ih]

lemma mkRepoCategories_map_elt_numbers (tlid : PyId) (num gen : Nat)
    (cs : List models.TierListCategory) :
    (mkRepoCategories tlid num gen cs).map (fun c => c.elements.map fun l => l.number)
      = cs.map (fun c => List.range' 0 c.element_ids.length) := by
  induction cs generalizing num gen with
  | nil => rfl
  | cons c cs ih =>
      simp only [mkRepoCategories, get_repo_category, List.map_cons, ih]
      rw [mkRepoLinks_map_number]

lemma mkRepoCategories_map_elt_ids (tlid : PyId) (num gen : Nat)
    (cs : List models.TierListCategory) :
    (mkRepoCategories tlid num gen cs).map (fun c => c.elements.map fun l => l.element_id)
      = cs.map (fun c => c.element_ids.map pyStr) := by
  induction cs generalizing num gen with
  | nil => rfl
  | cons c cs ih =>
      simp only [mkRepoCategories, get_repo_category, List.map_cons, ih]
      rw [mkRepoLinks_map_element_id]

lemma create_tier_lists (db : DB) (tl : models.TierList) (gen : Nat) :
    (Repository.create_tier_list db tl gen).tier_lists
      = db.tier_lists ++ [⟨pyStr tl.id, pyStr tl.user_id, tl.name⟩] := rfl

lemma create_categories (db : DB) (tl : models.TierList) (gen : Nat) :
    (Repository.create_tier_list db tl gen).tier_list_categories
      = db.tier_list_categories
        ++ flushCategories (pyStr tl.id) (mkRepoCategories tl.id 0 gen tl.categories) := rfl

lemma create_links (db : DB) (tl : models.TierList) (gen : Nat) :
    (Repository.create_tier_list db tl gen).tier_list_elements
      = db.tier_list_elements
        ++ flushLinks (mkRepoCategories tl.id 0 gen tl.categories) := rfl

/-! ### Shared concrete inputs used by the witnesses -/

/-- The empty storage state. -/
def dbEmpty : DB := ⟨[], [], [], [], []⟩

/-- A state holding one user (id 0), one element (id 2) and one tier list
(id 1, owned by user 0) with two categories (ids 5 and 6) and one element
link in each. -/
def dbW : DB :=
  ⟨[⟨0, "u", "p"⟩], [⟨2, "E", 52⟩], [⟨1, 0, "old"⟩],
    [⟨5, 1, 0, "C1"⟩, ⟨6, 1, 1, "C2"⟩], [⟨5, 0, 2⟩, ⟨6, 0, 2⟩]⟩

/-- A replacement tier list with a single category. -/
def tlW1 : models.TierList := ⟨.uuid 1, .uuid 0, "new", [⟨"C", [.uuid 2]⟩]⟩

/-! ## Claim theorems -/

/-- C4: for every id absent from storage, `get_element` fails with
`NotFound`, whereas `get_user` and `get_user_by_login` return an absent
value (`none`) for an absent user — their return type is `Option`, so they
cannot raise for not-found. -/
theorem claim_C4_lookup_asymmetry (db : DB) (element_id user_id : PyId)
    (login : String) :
    ((∀ r ∈ db.elements, r.id ≠ pyStr element_id) →
      Repository.get_element db element_id = .error .notFound) ∧
    ((∀ r ∈ db.users, r.id ≠ pyStr user_id) →
      Repository.get_user db user_id = none) ∧
    ((∀ r ∈ db.users, r.login ≠ login) →
      Repository.get_user_by_login db login = none) := by
  refine ⟨fun h => ?_, fun h => ?_, fun h => ?_⟩
  · unfold Repository.get_element
    rw [List.find?_eq_none.mpr (fun r hr => by simp [h r hr])]
  · unfold Repository.get_user
    rw [List.find?_eq_none.mpr (fun r hr => by simp [h r hr])]
  · unfold Repository.get_user_by_login
    rw [List.find?_eq_none.mpr (fun r hr => by simp [h r hr])]

theorem claim_C4_witness :
    Repository.get_element dbEmpty (.uuid 3) = .error .notFound ∧
    Repository.get_user dbEmpty (.uuid 3) = none ∧
    Repository.get_user_by_login dbEmpty "nobody" = none :=
  ⟨(claim_C4_lookup_asymmetry dbEmpty (.uuid 3) (.uuid 3) "nobody").1
      (by intro r hr; cases hr),
    (claim_C4_lookup_asymmetry dbEmpty (.uuid 3) (.uuid 3) "nobody").2.1
      (by intro r hr; cases hr),
    (claim_C4_lookup_asymmetry dbEmpty (.uuid 3) (.uuid 3) "nobody").2.2
      (by intro r hr; cases hr)⟩

/-- C6: the Unit-of-Work scope commits the body's writes on normal exit,
restores the entry state on any raised failure (including a failure raised
after the delete-then-reinsert writes of `update_tier_list`), and closes
the session on every exit path. -/
theorem claim_C6_unit_of_work {α : Type} (db : DB) (e : PyErr) (a : α)
    (writes failWrites : DB → DB) (tlid : PyId) (tl : models.TierList) (gen : Nat) :
    ((UnitOfWork.withScope (fun d => ScopeResult.ok a (writes d)) db).1.committed
        = writes db ∧
      (UnitOfWork.withScope (fun d => ScopeResult.ok a (writes d)) db).1.closed
        = true ∧
      (UnitOfWork.withScope (fun d => ScopeResult.ok a (writes d)) db).2
        = Except.ok a) ∧
    ((UnitOfWork.withScope
        (fun d => (ScopeResult.raised e (failWrites d) : ScopeResult α)) db).1.committed
        = db ∧
      (UnitOfWork.withScope
        (fun d => (ScopeResult.raised e (failWrites d) : ScopeResult α)) db).1.closed
        = true ∧
      (UnitOfWork.withScope
        (fun d => (ScopeResult.raised e (failWrites d) : ScopeResult α)) db).2
        = Except.error e) ∧
    (UnitOfWork.withScope
        (fun d => (ScopeResult.raised e (Repository.update_tier_list d tlid tl gen)
          : ScopeResult α))
        db).1.committed
      = db :=
  ⟨⟨rfl, rfl, rfl⟩, ⟨rfl, rfl, rfl⟩, rfl⟩

/-- C5 counterexample: with the uuid counter at 100 every freshly generated
identity is ≥ 100 (the single category receives 100), yet the produced tier
list record keeps id 5 — the domain tier list's own id — so the record's
identity is NOT freshly generated, contrary to the claim. -/
theorem claim_C5_counterexample :
    (_model_to_repo_tier_list ⟨.uuid 5, .uuid 6, "T", [⟨"A", [.uuid 7]⟩]⟩ 100).id = 5 ∧
    ((_model_to_repo_tier_list ⟨.uuid 5, .uuid 6, "T", [⟨"A", [.uuid 7]⟩]⟩ 100).categories.map
      fun c => c.id) = [100] ∧
    ¬ 100 ≤ (_model_to_repo_tier_list ⟨.uuid 5, .uuid 6, "T", [⟨"A", [.uuid 7]⟩]⟩ 100).id := by
  refine ⟨rfl, rfl, by decide⟩

/-- C5 amended: the forward mapping keeps the domain tier list's own id
(stringified) on the record, assigns a freshly generated identity (the
consecutive uuids `gen`, `gen+1`, ...) to each category, and assigns
`number` equal to the 0-based positional index at both the category and
the element-link level; it is a plain function of the domain tier list and
the uuid stream, touching no storage. -/
theorem claim_C5_amended (tl : models.TierList) (gen : Nat) :
    (_model_to_repo_tier_list tl gen).id = pyStr tl.id ∧
    (_model_to_repo_tier_list tl gen).user_id = pyStr tl.user_id ∧
    (_model_to_repo_tier_list tl gen).name = tl.name ∧
    ((_model_to_repo_tier_list tl gen).categories.map fun c => c.id)
      = List.range' gen tl.categories.length ∧
    ((_model_to_repo_tier_list tl gen).categories.map fun c => c.number)
      = List.range' 0 tl.categories.length ∧
    ((_model_to_repo_tier_list tl gen).categories.map fun c => c.name)
      = tl.categories.map (fun c => c.name) ∧
    ((_model_to_repo_tier_list tl gen).categories.map fun c =>
        c.elements.map fun l => l.number)
      = tl.categories.map (fun c => List.range' 0 c.element_ids.length) ∧
    ((_model_to_repo_tier_list tl gen).categories.map fun c =>
        c.elements.map fun l => l.element_id)
      = tl.categories.map (fun c => c.element_ids.map pyStr) :=
  ⟨rfl, rfl, rfl,
    mkRepoCategories_map_id tl.id 0 gen tl.categories,
    mkRepoCategories_map_number tl.id 0 gen tl.categories,
    mkRepoCategories_map_name tl.id 0 gen tl.categories,
    mkRepoCategories_map_elt_numbers tl.id 0 gen tl.categories,
    mkRepoCategories_map_elt_ids tl.id 0 gen tl.categories⟩

/-- C9: the tree built by the forward mapping is foreign-key consistent by
construction — every category of the tree references the produced record's
id (the originating tier list id) and every link references its containing
category — and every row `create_tier_list` or `update_tier_list` adds to
storage references the written tier list record resp. a category present
after the write. -/
theorem claim_C9_fk_consistency (db : DB) (tl : models.TierList) (tlid : PyId)
    (gen : Nat) :
    (∀ c ∈ (_model_to_repo_tier_list tl gen).categories,
      c.tier_list_id = (_model_to_repo_tier_list tl gen).id ∧
      ∀ l ∈ c.elements, l.tier_list_category_id = c.id) ∧
    (∀ r ∈ (Repository.create_tier_list db tl gen).tier_list_categories,
      r ∈ db.tier_list_categories ∨ r.tier_list_id = pyStr tl.id) ∧
    (∀ l ∈ (Repository.create_tier_list db tl gen).tier_list_elements,
      l ∈ db.tier_list_elements ∨
        l.tier_list_category_id ∈
          ((Repository.create_tier_list db tl gen).tier_list_categories.map
            fun r => r.id)) ∧
    (∀ r ∈ (Repository.update_tier_list db tlid tl gen).tier_list_categories,
      r ∈ db.tier_list_categories ∨ r.tier_list_id = pyStr tlid) ∧
    (∀ l ∈ (Repository.update_tier_list db tlid tl gen).tier_list_elements,
      l ∈ db.tier_list_elements ∨
        l.tier_list_category_id ∈
          ((Repository.update_tier_list db tlid tl gen).tier_list_categories.map
            fun r => r.id)) := by
  refine ⟨?_, ?_, ?_, ?_, ?_⟩
  · intro c hc
    exact ⟨mem_mkRepoCategories_tier_list_id c hc,
      mem_mkRepoCategories_elements c hc⟩
  · intro r hr
    rw [create_categories] at hr
    rcases List.mem_append.mp hr with h | h
    · exact Or.inl h
    · exact Or.inr (mem_flushCategories_tier_list_id r h)
  · intro l hl
    rw [create_links] at hl
    rcases List.mem_append.mp hl with h | h
    · exact Or.inl h
    · refine Or.inr ?_
      rw [create_categories, List.map_append, flushCategories_map_id]
      exact List.mem_append_right _ (mem_flushLinks l h)
  · intro r hr
    rw [update_categories] at hr
    rcases List.mem_append.mp hr with h | h
    · exact Or.inl (List.mem_filter.mp h).1
    · exact Or.inr (mem_flushCategories_tier_list_id r h)
  · intro l hl
    rw [update_elements_table] at hl
    rcases List.mem_append.mp hl with h | h
    · exact Or.inl (List.mem_filter.mp h).1
    · refine Or.inr ?_
      rw [update_categories, List.map_append, flushCategories_map_id]
      exact List.mem_append_right _ (mem_flushLinks l h)

theorem claim_C9_witness :
    (get_repo_category ⟨"C", [.uuid 2]⟩ (.uuid 1) 0 10).tier_list_id
      = (_model_to_repo_tier_list tlW1 10).id ∧
    ((⟨10, 1, 0, "C"⟩ : TierListCategoryRow) ∈ dbEmpty.tier_list_categories ∨
      (⟨10, 1, 0, "C"⟩ : TierListCategoryRow).tier_list_id = pyStr tlW1.id) :=
  ⟨((claim_C9_fk_consistency dbEmpty tlW1 (.uuid 1) 10).1
      (get_repo_category ⟨"C", [.uuid 2]⟩ (.uuid 1) 0 10) (by decide)).1,
    (claim_C9_fk_consistency dbEmpty tlW1 (.uuid 1) 10).2.1
      ⟨10, 1, 0, "C"⟩ (by decide)⟩

lemma commitCheck_ok {db : DB} (h : commitCheck db = .ok db) :
    (db.users.map fun r => r.id).Nodup ∧
    (db.elements.map fun r => r.id).Nodup ∧
    (db.tier_lists.map fun r => r.id).Nodup ∧
    (db.tier_list_categories.map fun r => r.id).Nodup ∧
    (db.tier_list_elements.map fun l =>
      (l.tier_list_category_id, l.number, l.element_id)).Nodup := by
  unfold commitCheck at h
  by_cases hc : (db.users.map fun r => r.id).Nodup ∧
      (db.elements.map fun r => r.id).Nodup ∧
      (db.tier_lists.map fun r => r.id).Nodup ∧
      (db.tier_list_categories.map fun r => r.id).Nodup ∧
      (db.tier_list_elements.map fun l =>
        (l.tier_list_category_id, l.number, l.element_id)).Nodup
  · exact hc
  · rw [if_neg hc] at h
    cases h

/-- C3 counterexample: storage declares no unique constraint on `login`
(`repositories.py` line 119 gives it only `nullable=False`), so inserting a
second user with the already-present login "alice" under a fresh id and
committing SUCCEEDS — no constraint violation — and both rows are visible
afterwards. -/
theorem claim_C3_counterexample :
    (⟨0, "alice", "p"⟩ : UserRow) ∈ (⟨[⟨0, "alice", "p"⟩], [], [], [], []⟩ : DB).users ∧
    commitCheck (Repository.add_user ⟨[⟨0, "alice", "p"⟩], [], [], [], []⟩
        ⟨.uuid 1, "alice", "q"⟩)
      = .ok ⟨[⟨0, "alice", "p"⟩, ⟨1, "alice", "q"⟩], [], [], [], []⟩ ∧
    commitCheck (Repository.add_user ⟨[⟨0, "alice", "p"⟩], [], [], [], []⟩
        ⟨.uuid 1, "alice", "q"⟩)
      ≠ .error .constraintViolation := by
  have h : commitCheck (Repository.add_user ⟨[⟨0, "alice", "p"⟩], [], [], [], []⟩
      ⟨.uuid 1, "alice", "q"⟩)
      = .ok ⟨[⟨0, "alice", "p"⟩, ⟨1, "alice", "q"⟩], [], [], [], []⟩ := rfl
  refine ⟨by decide, h, ?_⟩
  rw [h]
  intro hcontra
  cases hcontra

/-- C3 amended: `add_user` does not pre-check anything, and commit enforces
only the declared constraints — primary-key uniqueness per table, with no
uniqueness on `login` — so adding a second user with a duplicate login but
a fresh id commits successfully and both rows are stored.  (Login
uniqueness exists only as the `register_user` use-case pre-check via
`get_user_by_login`, which raises before any write.) -/
theorem claim_C3_amended (db : DB) (u2 : models.User) (r1 : UserRow)
    (hr1 : r1 ∈ db.users) (hlogin : u2.login = r1.login)
    (hok : commitCheck db = .ok db)
    (hfresh : pyStr u2.id ∉ db.users.map fun r => r.id) :
    commitCheck (Repository.add_user db u2) = .ok (Repository.add_user db u2) ∧
    (Repository.add_user db u2).users
      = db.users ++ [⟨pyStr u2.id, u2.login, u2.password_hash⟩] := by
  have hcond := commitCheck_ok hok
  have husers : (((Repository.add_user db u2).users).map fun r => r.id).Nodup := by
    show (((db.users ++ ([⟨pyStr u2.id, u2.login, u2.password_hash⟩] : List UserRow)).map
      fun r => r.id)).Nodup
    rw [List.map_append, List.nodup_append]
    refine ⟨hcond.1, by simp, ?_⟩
    intro a ha hb
    simp only [List.map_cons, List.map_nil, List.mem_singleton] at hb
    rw [hb] at ha
    exact hfresh ha
  refine ⟨?_, rfl⟩
  unfold commitCheck
  rw [if_pos ⟨husers, hcond.2.1, hcond.2.2.1, hcond.2.2.2.1, hcond.2.2.2.2⟩]

theorem claim_C3_witness :
    commitCheck (Repository.add_user ⟨[⟨0, "alice", "p"⟩], [], [], [], []⟩
        ⟨.uuid 1, "alice", "q"⟩)
      = .ok (Repository.add_user ⟨[⟨0, "alice", "p"⟩], [], [], [], []⟩
        ⟨.uuid 1, "alice", "q"⟩) ∧
    (Repository.add_user ⟨[⟨0, "alice", "p"⟩], [], [], [], []⟩
        ⟨.uuid 1, "alice", "q"⟩).users
      = [⟨0, "alice", "p"⟩] ++ [⟨1, "alice", "q"⟩] :=
  claim_C3_amended ⟨[⟨0, "alice", "p"⟩], [], [], [], []⟩
    ⟨.uuid 1, "alice", "q"⟩ ⟨0, "alice", "p"⟩
    (by decide) (by decide) rfl (by decide)

/-- C1 (evaluation at the failing input): create a tier list whose single
category "A" holds the uuid element id 2, then read it back.  The read
returns the same user id, the same category name and the same order, but
the element-id sequence comes back as the raw string value `str 2`
(`_repo_to_model_tier_list` omits the `uuid.UUID(...)` parse that it
applies to `id` and `user_id`), which Python equality distinguishes from
the `uuid 2` that was written — so the round-trip does NOT return the same
element-id sequence, although the textual payload matches. -/
theorem claim_C1_roundtrip_eval :
    Repository.get_user_tier_lists
        (Repository.create_tier_list
          ⟨[⟨0, "u", "p"⟩], [⟨2, "E", 52⟩], [], [], []⟩
          ⟨.uuid 1, .uuid 0, "TL", [⟨"A", [.uuid 2]⟩]⟩ 10)
        (.uuid 0)
      = [⟨.uuid 1, .uuid 0, "TL", [⟨"A", [.str 2]⟩]⟩] ∧
    ([PyId.str 2] : List PyId) ≠ [PyId.uuid 2] ∧
    pyStr (PyId.str 2) = pyStr (PyId.uuid 2) := by
  refine ⟨by decide, by decide, rfl⟩

/-- C2: `update_tier_list` replaces fully.  Under freshness of the uuid
counter (`H1`), tier list `tlid` being the only one of its user (`H2`) and
unique tier-list primary keys (`H3`): the next read returns exactly the
replacement's content; the category rows stored for `tlid` are exactly the
freshly flushed replacement categories (so a 2-category list updated with a
1-category list has exactly `1 = tl.categories.length` category rows); and
no link row referencing any of the old category ids survives. -/
theorem claim_C2_update_full_replace {db : DB} {tlid : PyId}
    {tl : models.TierList} {gen : Nat}
    (H1 : FreshFor gen db)
    (H2 : ∀ r ∈ db.tier_lists, r.user_id = pyStr tl.user_id → r.id = pyStr tlid)
    (H3 : (db.tier_lists.map fun r => r.id).Nodup) :
    Repository.get_user_tier_lists (Repository.update_tier_list db tlid tl gen)
        tl.user_id
      = [readBack tlid tl] ∧
    (Repository.update_tier_list db tlid tl gen).tier_list_categories.filter
        (fun c => c.tier_list_id == pyStr tlid)
      = flushCategories (pyStr tlid) (mkRepoCategories tl.id 0 gen tl.categories) ∧
    ((Repository.update_tier_list db tlid tl gen).tier_list_categories.filter
        (fun c => c.tier_list_id == pyStr tlid)).length
      = tl.categories.length ∧
    ∀ l ∈ (Repository.update_tier_list db tlid tl gen).tier_list_elements,
      l.tier_list_category_id ∉
        ((db.tier_list_categories.filter fun c =>
          c.tier_list_id == pyStr tlid).map fun c => c.id) := by
  refine ⟨update_read H1 H2 H3, update_categories_filter db tlid tl gen, ?_,
    update_no_orphans H1⟩
  rw [update_categories_filter db tlid tl gen, flushCategories_length,
    mkRepoCategories_length]

theorem claim_C2_witness :
    Repository.get_user_tier_lists
        (Repository.update_tier_list dbW (.uuid 1) tlW1 10) tlW1.user_id
      = [readBack (.uuid 1) tlW1] ∧
    ((Repository.update_tier_list dbW (.uuid 1) tlW1 10).tier_list_categories.filter
        (fun c => c.tier_list_id == pyStr (.uuid 1))).length
      = tlW1.categories.length :=
  ⟨(claim_C2_update_full_replace (by decide) (by decide) (by decide)).1,
    (claim_C2_update_full_replace (by decide) (by decide) (by decide)).2.2.1⟩

/-- C7: updating twice with the same logical content gives identical read
results after each write (the read strips the surrogate identities), while
the category identities of the two writes are disjoint: the first write
uses uuids `gen, ...`, the second `gen + n, ...`. -/
theorem claim_C7_idempotent_update {db : DB} {tlid : PyId}
    {tl : models.TierList} {gen : Nat}
    (H1 : FreshFor gen db)
    (H2 : ∀ r ∈ db.tier_lists, r.user_id = pyStr tl.user_id → r.id = pyStr tlid)
    (H3 : (db.tier_lists.map fun r => r.id).Nodup) :
    Repository.get_user_tier_lists (Repository.update_tier_list db tlid tl gen)
        tl.user_id
      = Repository.get_user_tier_lists
          (Repository.update_tier_list (Repository.update_tier_list db tlid tl gen)
            tlid tl (gen + tl.categories.length))
          tl.user_id ∧
    Repository.get_user_tier_lists (Repository.update_tier_list db tlid tl gen)
        tl.user_id
      = [readBack tlid tl] ∧
    ∀ a ∈ ((Repository.update_tier_list db tlid tl gen).tier_list_categories.filter
        (fun c => c.tier_list_id == pyStr tlid)).map (fun c => c.id),
      a ∉ (((Repository.update_tier_list
          (Repository.update_tier_list db tlid tl gen)
          tlid tl (gen + tl.categories.length)).tier_list_categories.filter
        (fun c => c.tier_list_id == pyStr tlid)).map (fun c => c.id)) := by
  have H1a := FreshFor_update tlid tl H1
  have H2a : ∀ r ∈ (Repository.update_tier_list db tlid tl gen).tier_lists,
      r.user_id = pyStr tl.user_id → r.id = pyStr tlid := by
    rw [update_tier_lists]
    exact mergeTierListRow_user_imp H2
  have H3a : ((Repository.update_tier_list db tlid tl gen).tier_lists.map
      fun r => r.id).Nodup := by
    rw [update_tier_lists]
    exact mergeTierListRow_nodup H3
  have h1 := update_read H1 H2 H3
  have h2 := update_read H1a H2a H3a
  refine ⟨h1.trans h2.symm, h1, ?_⟩
  intro a ha hb
  rw [update_categories_filter] at ha hb
  rcases List.mem_map.mp ha with ⟨r1, hr1, hr1a⟩
  rcases List.mem_map.mp hb with ⟨r2, hr2, hr2a⟩
  have hub := (mem_flushCategories_id_bounds r1 hr1).2
  have hlb := (mem_flushCategories_id_bounds r2 hr2).1
  rw [hr1a] at hub
  rw [hr2a] at hlb
  exact Nat.not_le_of_lt hub hlb

/-- C8 (frame): `update_tier_list` leaves the users and elements tables
untouched, every tier list row other than `tlid` unchanged, the category
rows of every other tier list unchanged, and the link rows of every
category belonging to another tier list unchanged. -/
theorem claim_C8_update_frame {db : DB} {tlid : PyId}
    {tl : models.TierList} {gen : Nat}
    (H1 : FreshFor gen db)
    (H4 : (db.tier_list_categories.map fun c => c.id).Nodup) :
    (Repository.update_tier_list db tlid tl gen).users = db.users ∧
    (Repository.update_tier_list db tlid tl gen).elements = db.elements ∧
    (Repository.update_tier_list db tlid tl gen).tier_lists.filter
        (fun r => !(r.id == pyStr tlid))
      = db.tier_lists.filter (fun r => !(r.id == pyStr tlid)) ∧
    (∀ t, t ≠ pyStr tlid →
      (Repository.update_tier_list db tlid tl gen).tier_list_categories.filter
          (fun c => c.tier_list_id == t)
        = db.tier_list_categories.filter (fun c => c.tier_list_id == t)) ∧
    (∀ c ∈ db.tier_list_categories, c.tier_list_id ≠ pyStr tlid →
      (Repository.update_tier_list db tlid tl gen).tier_list_elements.filter
          (fun l => l.tier_list_category_id == c.id)
        = db.tier_list_elements.filter
          (fun l => l.tier_list_category_id == c.id)) := by
  refine ⟨rfl, rfl, ?_, ?_, ?_⟩
  · rw [update_tier_lists]
    exact mergeTierListRow_filter_ne db.tier_lists ⟨pyStr tlid, pyStr tl.user_id, tl.name⟩
  · intro t ht
    rw [update_categories, List.filter_append]
    have hflush : (flushCategories (pyStr tlid)
        (mkRepoCategories tl.id 0 gen tl.categories)).filter
        (fun c => c.tier_list_id == t) = [] := by
      refine List.filter_eq_nil_iff.mpr ?_
      intro r hr hb
      exact ht ((beq_iff_eq.mp hb) ▸ (mem_flushCategories_tier_list_id r hr) ▸ rfl)
    rw [hflush, List.append_nil, List.filter_filter]
    refine List.filter_congr ?_
    intro c _
    by_cases hct : (c.tier_list_id == t) = true
    · have h1 : (c.tier_list_id == pyStr tlid) = false := by
        refine beq_eq_false_iff_ne.mpr ?_
        rw [beq_iff_eq.mp hct]
        exact ht
      simp [hct, h1]
    · simp [Bool.eq_false_iff.mpr hct]
  · intro c hc hcne
    rw [update_elements_table, List.filter_append]
    have hflush : (flushLinks (mkRepoCategories tl.id 0 gen tl.categories)).filter
        (fun l => l.tier_list_category_id == c.id) = [] := by
      refine List.filter_eq_nil_iff.mpr ?_
      intro l hl hb
      rcases List.mem_map.mp (mem_flushLinks l hl) with ⟨c0, hc0, hc0c⟩
      have hge : gen ≤ c0.id := mem_mkRepoCategories_id_ge c0 hc0
      have hlt : c.id < gen := H1.1 c hc
      rw [← hc0c] at hb
      rw [← beq_iff_eq.mp hb] at hlt
      exact Nat.not_le_of_lt hlt hge
    rw [hflush, List.append_nil, List.filter_filter]
    refine List.filter_congr ?_
    intro l _
    by_cases hlc : (l.tier_list_category_id == c.id) = true
    · have hnotold : c.id ∉ ((db.tier_list_categories.filter fun x =>
          x.tier_list_id == pyStr tlid).map fun x => x.id) := by
        intro hmem
        rcases List.mem_map.mp hmem with ⟨c2, hc2, hc2id⟩
        have hc2mem : c2 ∈ db.tier_list_categories := (List.mem_filter.mp hc2).1
        have hc2tl : c2.tier_list_id = pyStr tlid :=
          beq_iff_eq.mp (List.mem_filter.mp hc2).2
        have : c2 = c := List.inj_on_of_nodup_map H4 hc2mem hc hc2id
        rw [this] at hc2tl
        exact hcne hc2tl
      have hcontains : (((db.tier_list_categories.filter fun x =>
          x.tier_list_id == pyStr tlid).map fun x => x.id).contains
            l.tier_list_category_id) = false := by
        rw [beq_iff_eq.mp hlc]
        by_contra hcon
        have := Bool.of_not_eq_false hcon
        exact hnotold (by simpa using this)
      rw [hlc, hcontains]
      rfl
    · simp [Bool.eq_false_iff.mpr hlc]

theorem claim_C8_witness :
    FreshFor 10 dbW ∧
    (Repository.update_tier_list dbW (.uuid 1) tlW1 10).users = dbW.users ∧
    (Repository.update_tier_list dbW (.uuid 1) tlW1 10).elements = dbW.elements ∧
    (Repository.update_tier_list dbW (.uuid 1) tlW1 10).tier_lists.filter
        (fun r => !(r.id == pyStr (.uuid 1)))
      = dbW.tier_lists.filter (fun r => !(r.id == pyStr (.uuid 1))) :=
  ⟨by decide,
    (claim_C8_update_frame (by decide) (by decide)).1,
    (claim_C8_update_frame (by decide) (by decide)).2.1,
    (claim_C8_update_frame (by decide) (by decide)).2.2.1⟩

/-- C10: both tier-list use cases take `user_tier_lists[0]` without a
guard: when the user owns no tier list they fail with `IndexError` (not an
absent result), and when the user owns at least one the indexing is safe —
the operation can never fail with `IndexError`.  Registration guarantees
the guard: a successful `register_user` leaves its new user with a
non-empty tier list sequence. -/
theorem claim_C10_unguarded_first (db : DB) (uid : PyId)
    (update : usecases.UpdateTierList) (gen : Nat) (login password : String)
    (gen2 : Nat) :
    (Repository.get_user_tier_lists db uid = [] →
      UseCase.get_user_tier_list db uid = .error .indexError ∧
      UseCase.update_user_tier_list db uid update gen = .error .indexError) ∧
    (Repository.get_user_tier_lists db uid ≠ [] →
      UseCase.get_user_tier_list db uid ≠ .error .indexError ∧
      UseCase.update_user_tier_list db uid update gen ≠ .error .indexError) ∧
    (∀ uid2 db2, UseCase.register_user db login password gen2 = .ok (uid2, db2) →
      Repository.get_user_tier_lists db2 uid2 ≠ []) := by
  refine ⟨fun h => ⟨?_, ?_⟩, fun h => ?_, ?_⟩
  · unfold UseCase.get_user_tier_list
    rw [h]
  · unfold UseCase.update_user_tier_list
    rw [h]
  · cases hlist : Repository.get_user_tier_lists db uid with
    | nil => exact absurd hlist h
    | cons tlf rest =>
        constructor
        · unfold UseCase.get_user_tier_list
          rw [hlist]
          refine except_bind_error _ _ _ ?_ ?_
          · refine mapM_ne_error _ _ ?_ _
            intro category
            refine except_bind_error _ _ _ ?_ ?_
            · refine mapM_ne_error _ _ ?_ _
              intro element_id
              refine except_bind_error _ _ _ (get_element_ne_indexError db element_id) ?_
              intro e
              simp [pure, Except.pure]
            · intro elements
              simp [pure, Except.pure]
          · intro categories
            simp [pure, Except.pure]
        · unfold UseCase.update_user_tier_list
          rw [hlist]
          simp
  · intro uid2 db2 hreg
    unfold UseCase.register_user at hreg
    cases hfind : Repository.get_user_by_login db login with
    | some u =>
        rw [hfind] at hreg
        cases hreg
    | none =>
        rw [hfind] at hreg
        simp only [Except.ok.injEq, Prod.mk.injEq] at hreg
        obtain ⟨h1, h2⟩ := hreg
        rw [← h2, ← h1]
        unfold Repository.get_user_tier_lists
        have hmem : (⟨gen2 + 1, gen2, ""⟩ : TierListRow) ∈
            ((Repository.create_tier_list
              (Repository.add_user db ⟨PyId.uuid gen2, login, password⟩)
              ⟨PyId.uuid (gen2 + 1), PyId.uuid gen2, "", []⟩
              (gen2 + 2)).tier_lists.filter
              (fun r => r.user_id == pyStr (PyId.uuid gen2))) := by
          refine List.mem_filter.mpr ⟨?_, by simp [pyStr]⟩
          rw [create_tier_lists]
          exact List.mem_append_right _ (by simp [pyStr])
        exact List.ne_nil_of_mem
          (List.mem_map_of_mem
            (fun r => _repo_to_model_tier_list
              (Repository.loadTierList
                (Repository.create_tier_list
                  (Repository.add_user db ⟨PyId.uuid gen2, login, password⟩)
                  ⟨PyId.uuid (gen2 + 1), PyId.uuid gen2, "", []⟩
                  (gen2 + 2)) r)) hmem)

theorem claim_C10_witness :
    UseCase.get_user_tier_list dbEmpty (.uuid 0) = .error .indexError ∧
    UseCase.get_user_tier_list dbW (.uuid 0) ≠ .error .indexError ∧
    Repository.get_user_tier_lists
        (Repository.create_tier_list
          (Repository.add_user dbEmpty ⟨.uuid 0, "alice", "pw"⟩)
          ⟨.uuid 1, .uuid 0, "", []⟩ 2)
        (.uuid 0) ≠ [] :=
  ⟨((claim_C10_unguarded_first dbEmpty (.uuid 0) ⟨"", []⟩ 5 "alice" "pw" 0).1 rfl).1,
    ((claim_C10_unguarded_first dbW (.uuid 0) ⟨"", []⟩ 5 "alice" "pw" 0).2.1
      (by decide)).1,
    (claim_C10_unguarded_first dbEmpty (.uuid 0) ⟨"", []⟩ 5 "alice" "pw" 0).2.2
      (.uuid 0) _ rfl⟩

theorem claim_C7_witness :
    Repository.get_user_tier_lists
        (Repository.update_tier_list dbW (.uuid 1) tlW1 10) tlW1.user_id
      = Repository.get_user_tier_lists
          (Repository.update_tier_list (Repository.update_tier_list dbW (.uuid 1) tlW1 10)
            (.uuid 1) tlW1 (10 + tlW1.categories.length))
          tlW1.user_id ∧
    Repository.get_user_tier_lists
        (Repository.update_tier_list dbW (.uuid 1) tlW1 10) tlW1.user_id
      = [readBack (.uuid 1) tlW1] :=
  ⟨(claim_C7_idempotent_update (by decide) (by decide) (by decide)).1,
    (claim_C7_idempotent_update (by decide) (by decide) (by decide)).2.1⟩
